import Mathlib

/-!
Verification development for the batched TUN packet-forwarding engine
(`tun` package: `forward`, `readToChannel`, `writeFromChannel`, `Run`;
legacy `forward` variant; constants `batchSize`, `offset`, `mtuSize`,
`maxPktSize`).  Byte buffers are modelled as `List Nat`; a Go slice is a
backing array together with its current length.
-/

namespace TunModel

/-- Batch size constant from the source: `batchSize = 128`. -/
def batchSize : Nat := 128

/-- Header offset constant from the source: `offset = 10`. -/
def offset : Nat := 10

/-- MTU constant from the source: `mtuSize = 1500`. -/
def mtuSize : Nat := 1500

/-- Maximum packet buffer size from the source: `maxPktSize = 65535 + offset`. -/
def maxPktSize : Nat := 65535 + offset

/-- Read-buffer length used by both read loops: `bufLen = mtuSize + offset`. -/
def bufLen : Nat := mtuSize + offset

/-- A Go slice over a byte array: the backing bytes (from the slice start to
its capacity) together with the current slice length.  Here capacity is the
length of `back`. -/
structure GoSlice where
  back : List Nat
  len : Nat
deriving DecidableEq

/-- Overwrite `data.length` bytes of `l` starting at position `pos`
(the effect of writing packet bytes into a buffer at an offset). -/
def writeBytes (l : List Nat) (pos : Nat) (data : List Nat) : List Nat :=
  l.take pos ++ data ++ l.drop (pos + data.length)

/-- Go's `copy(dst, src)`: copies `min (len dst) (len src)` bytes from the
front of `src` over the front of `dst`, leaving the rest of `dst`. -/
def goCopy (dst src : List Nat) : List Nat :=
  src.take (min dst.length src.length) ++ dst.drop (min dst.length src.length)

/-- Modelled from the spec: the Device implementation (`CreateTUN` and its
`Read`/`Write` methods) is not among the sources; per the spec's Device
contract, `ReadBatch` writes the packet payload into the buffer starting at
the header offset and truncates the buffer to the actual bytes read plus
`headerOffset` afterward. -/
def deviceFill (b : GoSlice) (p : List Nat) : GoSlice :=
  { back := writeBytes b.back offset p, len := offset + p.length }

/-- A read event observed from the source Device: `none` is a Read error,
`some ps` a successful Read delivering the payloads `ps` (at most
`batchSize` of them, each at most `mtuSize` bytes, in a contract-conforming
run). -/
abbrev ReadEvent := Option (List (List Nat))

/-- Output trace of one direct-forwarding loop: the `WriteBatch` calls made
(each a list of resliced buffers), the number of `Read` calls made, and the
number of error log lines emitted. -/
structure DirOut where
  writes : List (List (List Nat))
  reads : Nat
  logs : Nat
deriving DecidableEq

/-- The reset at the top of the `forward` loop: `bufs[i] = bufs[i][:bufLen]`
restores every buffer's length to `bufLen` (capacity is unchanged). -/
def resetBufs (bufs : Nat → GoSlice) : Nat → GoSlice :=
  fun i => { back := (bufs i).back, len := bufLen }

/-- The effect of one `src.Read(bufs, sizes, offset)` call on the buffer
array: buffer `i` receives payload `ps[i]` for `i < n` (see `deviceFill`). -/
def dFill (bufs : Nat → GoSlice) (ps : List (List Nat)) : Nat → GoSlice :=
  fun i => if i < ps.length then deviceFill (bufs i) (ps.getD i []) else bufs i

/-- The write batch the `forward` loop builds after a successful read:
`outBufs[i] = bufs[i][:sizes[i]+offset]` for `0 ≤ i < n`. -/
def dBatch (bufs : Nat → GoSlice) (ps : List (List Nat)) : List (List Nat) :=
  (List.range ps.length).map fun i => (bufs i).back.take ((ps.getD i []).length + offset)

/-- The `forward` loop of the `tun` package (DirectForwarder), as a trace
function over a list of read events and an oracle `wr` of `dst.Write`
results (accepted count, error flag).  Per iteration: reset every buffer to
`bufLen`, `Read`; on read error log and return; on `n = 0` retry; otherwise
reslice the `n` filled buffers and issue one `WriteBatch`, logging (but
continuing) on write error. -/
def forward : (Nat → GoSlice) → List ReadEvent → List (Nat × Bool) → DirOut
  | _, [], _ => ⟨[], 0, 0⟩
  | _, none :: _, _ => ⟨[], 1, 1⟩
  | bufs, some [] :: evs, wr =>
    let o := forward (resetBufs bufs) evs wr
    ⟨o.writes, o.reads + 1, o.logs⟩
  | bufs, some (p :: ps) :: evs, wr =>
    let b2 := dFill (resetBufs bufs) (p :: ps)
    let werr := (wr.headD (0, false)).2
    let o := forward b2 evs wr.tail
    ⟨dBatch b2 (p :: ps) :: o.writes, o.reads + 1, (if werr then 1 else 0) + o.logs⟩

/-- The buffer array `forward` allocates at startup:
`bufs[i] = make([]byte, maxPktSize)`. -/
def initDirect : Nat → GoSlice :=
  fun _ => { back := List.replicate maxPktSize 0, len := maxPktSize }

/-- Buffer length used by the legacy `forward` variant:
`bufLen = 65535 + offset`. -/
def legacyBufLen : Nat := 65535 + offset

/-- The reset at the top of the legacy `forward` loop, to its own
`bufLen = 65535 + offset`. -/
def legacyReset (bufs : Nat → GoSlice) : Nat → GoSlice :=
  fun i => { back := (bufs i).back, len := legacyBufLen }

/-- The legacy `forward` loop (the second `tun` package variant): identical
batching, but a `Read` error is logged and the loop CONTINUES (`continue`
rather than `return`); a write error is likewise logged and the loop
continues.  Buffers are allocated and reset to `legacyBufLen`. -/
def legacyForward : (Nat → GoSlice) → List ReadEvent → List (Nat × Bool) → DirOut
  | _, [], _ => ⟨[], 0, 0⟩
  | bufs, none :: evs, wr =>
    let o := legacyForward (legacyReset bufs) evs wr
    ⟨o.writes, o.reads + 1, o.logs + 1⟩
  | bufs, some [] :: evs, wr =>
    let o := legacyForward (legacyReset bufs) evs wr
    ⟨o.writes, o.reads + 1, o.logs⟩
  | bufs, some (p :: ps) :: evs, wr =>
    let b2 := dFill (legacyReset bufs) (p :: ps)
    let werr := (wr.headD (0, false)).2
    let o := legacyForward b2 evs wr.tail
    ⟨dBatch b2 (p :: ps) :: o.writes, o.reads + 1, (if werr then 1 else 0) + o.logs⟩

/-- The buffer array the legacy `forward` allocates:
`bufs[i] = make([]byte, bufLen)` with its `bufLen = 65535 + offset`. -/
def initLegacy : Nat → GoSlice :=
  fun _ => { back := List.replicate legacyBufLen 0, len := legacyBufLen }

/-- The `packet` struct sent through the channel: the owned buffer and the
logical size (`sizes[i] + offset`). -/
structure QPacket where
  buf : List Nat
  size : Nat
deriving DecidableEq

/-- The payload bytes a packet contributes when written:
`pkt.buf[:pkt.size]` is handed to `Write` with `offset`, so the device
emits the bytes after the header reservation. -/
def qpayload (pkt : QPacket) : List Nat :=
  (pkt.buf.take pkt.size).drop offset

/-- `packetBufferPool.Get()`: returns some free buffer (choice index `k`
models `sync.Pool`'s freedom), or a fresh `make([]byte, maxPktSize)` via
the pool's `New` when none is free. -/
def poolGet (k : Nat) (pool : List (List Nat)) : List Nat × List (List Nat) :=
  match pool with
  | [] => (List.replicate maxPktSize 0, [])
  | _ :: _ => (pool.getD (k % pool.length) [], pool.eraseIdx (k % pool.length))

/-- State of the `readToChannel` goroutine: its read buffers, the pool's
free set, the packets enqueued so far (FIFO order), the number of times the
undersized-buffer fallback branch ran, and the number of `Read` calls. -/
structure ReaderState where
  readBufs : Nat → GoSlice
  pool : List (List Nat)
  queue : List QPacket
  fallbacks : Nat
  reads : Nat

/-- The body of `readToChannel`'s inner loop for one packet `p` read into
buffer `i`: acquire `pktBuf` (from the pool under `usePool`, else
`make([]byte, maxPktSize)`), fall back to `make([]byte, size)` if
`cap(pktBuf) < size`, copy `readBufs[i][:size]`, and enqueue. -/
def readerHandle (usePool : Bool) (st : ReaderState) (i : Nat) (p : List Nat)
    (k : Nat) : ReaderState :=
  let filled := deviceFill (st.readBufs i) p
  let size := offset + p.length
  let bufs1 := fun j => if j = i then filled else st.readBufs j
  let acq := if usePool then poolGet k st.pool else (List.replicate maxPktSize 0, st.pool)
  let fb := acq.1.length < size
  let pktBuf := if fb then List.replicate size 0 else acq.1
  let pkt := QPacket.mk (goCopy pktBuf (filled.back.take size)) size
  { readBufs := bufs1, pool := acq.2, queue := st.queue ++ [pkt],
    fallbacks := st.fallbacks + (if fb then 1 else 0), reads := st.reads }

/-- The inner `for i := 0; i < n; i++` loop of `readToChannel` over the
payloads of one read event, with the pool-choice oracle `ks`. -/
def readerEvent (usePool : Bool) : ReaderState → Nat → List (List Nat) → List Nat → ReaderState
  | st, _, [], _ => st
  | st, i, p :: ps, ks =>
    readerEvent usePool (readerHandle usePool st i p (ks.headD 0)) (i + 1) ps ks.tail

/-- The `readToChannel` goroutine of the `tun` package: loop `Read`; on
error log and return; otherwise process the `n` packets read and loop.
Note there is no buffer reset before the next `Read`. -/
def readToChannel (usePool : Bool) : ReaderState → List ReadEvent → List Nat → ReaderState
  | st, [], _ => st
  | st, none :: _, _ => { st with reads := st.reads + 1 }
  | st, some ps :: evs, oracle =>
    readToChannel usePool
      (readerEvent usePool { st with reads := st.reads + 1 } 0 ps (oracle.take ps.length))
      evs (oracle.drop ps.length)

/-- The reader state at startup: `readBufs[i] = make([]byte, mtuSize+offset)`,
a given pool free set, empty queue. -/
def initReader (pool : List (List Nat)) : ReaderState :=
  { readBufs := fun _ => { back := List.replicate bufLen 0, len := bufLen },
    pool := pool, queue := [], fallbacks := 0, reads := 0 }

/-- The writer's opportunistic `collect` loop: starting with one packet in
hand, up to `fuel` further non-blocking receives; oracle entry `true` means
a packet was immediately available.  Returns the packets collected, the
rest of the queue, and the remaining oracle. -/
def collectMore : Nat → List QPacket → List Bool → List QPacket × List QPacket × List Bool
  | 0, q, sched => ([], q, sched)
  | _ + 1, [], sched => ([], [], sched)
  | fuel + 1, x :: q, sched =>
    match sched with
    | true :: sched' =>
      let r := collectMore fuel q sched'
      (x :: r.1, r.2.1, r.2.2)
    | _ => ([], x :: q, sched)

/-- Output trace of the `writeFromChannel` goroutine: the `WriteBatch`
calls made, the final pool free set, and the number of error log lines. -/
structure WriterOut where
  batches : List (List QPacket)
  pool : List (List Nat)
  logs : Nat
deriving DecidableEq

/-- The body of the `writeFromChannel` goroutine over the eventual queue
contents: blocking-receive one packet, collect up to `batchSize - 1` more
non-blockingly (per the availability oracle `sched`), issue one
`WriteBatch` whose result comes from the oracle `wr` (count, error flag;
the count is ignored and an error only logs), then — if `usePool` — `Put`
every original buffer of the batch back into the pool.  The `fuel`
argument only bounds the number of loop iterations; every batch consumes
at least one queued packet, so `fuel = q.length` never runs out. -/
def writeFromChannelLoop (usePool : Bool) :
    Nat → List QPacket → List Bool → List (Nat × Bool) → List (List Nat) → WriterOut
  | 0, _, _, _, pool => ⟨[], pool, 0⟩
  | _ + 1, [], _, _, pool => ⟨[], pool, 0⟩
  | fuel + 1, x :: q1, sched, wr, pool =>
    let r := collectMore (batchSize - 1) q1 sched
    let batch := x :: r.1
    let werr := (wr.headD (0, false)).2
    let pool1 := if usePool then (batch.map QPacket.buf).foldl (fun pl b => b :: pl) pool else pool
    let o := writeFromChannelLoop usePool fuel r.2.1 r.2.2 wr.tail pool1
    ⟨batch :: o.batches, o.pool, (if werr then 1 else 0) + o.logs⟩

/-- The `writeFromChannel` goroutine of the `tun` package over the eventual
queue contents `q` (see `writeFromChannelLoop`). -/
def writeFromChannel (usePool : Bool) (q : List QPacket) (sched : List Bool)
    (wr : List (Nat × Bool)) (pool : List (List Nat)) : WriterOut :=
  writeFromChannelLoop usePool q.length q sched wr pool

/-- The payload the destination device emits for one written buffer: the
bytes after the `offset`-byte header reservation. -/
def payloadOf (b : List Nat) : List Nat := b.drop offset

/-- All payload bytes written across a trace of `WriteBatch` calls, in
order. -/
def payloadsOfBatches (ws : List (List (List Nat))) : List (List Nat) :=
  ws.flatten.map payloadOf

/-- All payload bytes written across the writer goroutine's batches, in
order. -/
def queuedPayloads (w : WriterOut) : List (List Nat) :=
  w.batches.flatten.map qpayload

/-- The sequence of payloads the source Device delivers before the first
read error (the packets any forwarding strategy gets to see). -/
def srcPayloads : List ReadEvent → List (List Nat)
  | [] => []
  | none :: _ => []
  | some ps :: evs => ps ++ srcPayloads evs

/-- Contract-conformance of a read-event trace: every successful read
delivers payloads of at most `mtuSize` bytes (the read buffers are
`mtuSize + offset` long). -/
def wfEvents (evs : List ReadEvent) : Bool :=
  evs.all fun e => (e.getD []).all fun p => decide (p.length ≤ mtuSize)

/-- The observable behaviour of one forwarding direction as set up by
`Run`: the payload sequence written to the destination, the number of
source reads, the final pool free set, and whether the global
`packetBufferPool` was initialized. -/
structure PipeOut where
  payloads : List (List Nat)
  reads : Nat
  poolBufs : List (List Nat)
  poolInitialized : Bool
deriving DecidableEq

/-- One direction of `Run`: with `useChannel` the queued pipeline
(`forwardWithChannel`, which initializes the global pool iff `usePool`);
without it the direct `forward` loop, which never touches the pool. -/
def runDirection (useChannel usePool : Bool) (evs : List ReadEvent)
    (oracle : List Nat) (sched : List Bool) (wr : List (Nat × Bool)) : PipeOut :=
  if useChannel then
    let st := readToChannel usePool (initReader []) evs oracle
    let w := writeFromChannel usePool st.queue sched wr st.pool
    ⟨queuedPayloads w, st.reads, w.pool, usePool⟩
  else
    let o := forward initDirect evs wr
    ⟨payloadsOfBatches o.writes, o.reads, [], false⟩

/-- The whole `Run(useChannel, usePool)`: two independent symmetric
directions driven by their own event traces and oracles. -/
def tunRunModel (useChannel usePool : Bool)
    (evs1 evs2 : List ReadEvent) (or1 or2 : List Nat)
    (sch1 sch2 : List Bool) (wr1 wr2 : List (Nat × Bool)) : PipeOut × PipeOut :=
  (runDirection useChannel usePool evs1 or1 sch1 wr1,
   runDirection useChannel usePool evs2 or2 sch2 wr2)

/-- Invariant carried by both read loops: every read buffer's backing array
is at least `offset` bytes long (so a header prefix always exists). -/
def bufsInv (bufs : Nat → GoSlice) : Prop :=
  ∀ i, offset ≤ (bufs i).back.length

/-- A stale, undersized free buffer (capacity 5) planted in the pool: the
misconfigured-pool scenario the undersized-buffer safeguard exists for. -/
def stalePool : List (List Nat) := [List.replicate 5 0]

/-- One successful read delivering a single 100-byte payload. -/
def oneReadEvents : List ReadEvent := [some [List.replicate 100 1]]

/-- The reader state after `readToChannel` (pooling on, stale pool)
processes the single 100-byte packet. -/
def c1Reader : ReaderState := readToChannel true (initReader stalePool) oneReadEvents [0]

/-- The writer outcome after `writeFromChannel` (pooling on) drains that
packet and returns its buffer to the pool. -/
def c1Writer : WriterOut := writeFromChannel true c1Reader.queue [] [] c1Reader.pool

/-- The reader state after `readToChannel` (pooling off) processes the
single 100-byte packet: its buffer lengths are what the second `Read` call
would be handed. -/
def c5Reader : ReaderState := readToChannel false (initReader []) oneReadEvents []

theorem goCopy_length (dst src : List Nat) : (goCopy dst src).length = dst.length := by
  simp [goCopy]

theorem goCopy_take_of_le (dst src : List Nat) (h : src.length ≤ dst.length) :
    (goCopy dst src).take src.length = src := by
  have hm : min dst.length src.length = src.length := by omega
  simp [goCopy, hm, List.take_append_of_le_length]

theorem writeBytes_length_ge (l : List Nat) (pos : Nat) (data : List Nat)
    (h : pos ≤ l.length) : pos + data.length ≤ (writeBytes l pos data).length := by
  simp [writeBytes]
  omega

theorem writeBytes_take (l : List Nat) (pos : Nat) (data : List Nat)
    (h : pos ≤ l.length) :
    (writeBytes l pos data).take (pos + data.length) = l.take pos ++ data := by
  have h1 : (l.take pos ++ data).length = pos + data.length := by simp; omega
  calc (writeBytes l pos data).take (pos + data.length)
      = ((l.take pos ++ data) ++ l.drop (pos + data.length)).take
          (pos + data.length) := by simp [writeBytes]
    _ = (l.take pos ++ data).take (pos + data.length) :=
        List.take_append_of_le_length (by omega)
    _ = l.take pos ++ data := by rw [← h1, List.take_length]

theorem writeBytes_payload (l : List Nat) (pos : Nat) (data : List Nat)
    (h : pos ≤ l.length) :
    ((writeBytes l pos data).take (pos + data.length)).drop pos = data := by
  rw [writeBytes_take l pos data h]
  have h1 : (l.take pos).length = pos := by simp; omega
  have h2 := List.drop_left (l.take pos) data
  rwa [h1] at h2

theorem collectMore_append (fuel : Nat) (q : List QPacket) (sched : List Bool) :
    (collectMore fuel q sched).1 ++ (collectMore fuel q sched).2.1 = q := by
  induction fuel generalizing q sched with
  | zero => simp [collectMore]
  | succ fuel ih =>
    cases q with
    | nil => simp [collectMore]
    | cons x q =>
      cases sched with
      | nil => simp [collectMore]
      | cons b sched =>
        cases b with
        | false => simp [collectMore]
        | true => simp [collectMore, ih]

theorem collectMore_length_le (fuel : Nat) (q : List QPacket) (sched : List Bool) :
    (collectMore fuel q sched).1.length ≤ fuel := by
  induction fuel generalizing q sched with
  | zero => simp [collectMore]
  | succ fuel ih =>
    cases q with
    | nil => simp [collectMore]
    | cons x q =>
      cases sched with
      | nil => simp [collectMore]
      | cons b sched =>
        cases b with
        | false => simp [collectMore]
        | true =>
          simp only [collectMore]
          have := ih q sched
          simp
          omega

theorem collectMore_rest_length_le (fuel : Nat) (q : List QPacket) (sched : List Bool) :
    (collectMore fuel q sched).2.1.length ≤ q.length := by
  have h := collectMore_append fuel q sched
  have := congrArg List.length h
  simp at this
  omega

theorem bufsInv_resetBufs (bufs : Nat → GoSlice) (h : bufsInv bufs) :
    bufsInv (resetBufs bufs) := fun i => h i

theorem bufsInv_dFill (bufs : Nat → GoSlice) (ps : List (List Nat))
    (h : bufsInv bufs) : bufsInv (dFill bufs ps) := by
  intro i
  unfold dFill
  split
  · have := writeBytes_length_ge (bufs i).back offset (ps.getD i []) (h i)
    simp only [deviceFill]
    omega
  · exact h i

theorem bufsInv_initDirect : bufsInv initDirect := by
  intro i
  simp only [initDirect, List.length_replicate, offset, maxPktSize]
  omega

theorem bufsInv_initReader (pool : List (List Nat)) :
    bufsInv (initReader pool).readBufs := by
  intro i
  simp only [initReader, List.length_replicate, offset, bufLen, mtuSize]
  omega

theorem dBatch_payloads (bufs : Nat → GoSlice) (ps : List (List Nat))
    (h : bufsInv bufs) : (dBatch (dFill bufs ps) ps).map payloadOf = ps := by
  apply List.ext_getElem
  · simp [dBatch]
  · intro i h1 h2
    simp only [dBatch, List.getElem_map, List.getElem_range]
    have hi : i < ps.length := by simpa [dBatch] using h2
    have hd : dFill bufs ps i = deviceFill (bufs i) (ps.getD i []) := by
      simp [dFill, hi]
    rw [hd]
    simp only [deviceFill, payloadOf]
    rw [Nat.add_comm (ps.getD i []).length offset]
    rw [writeBytes_payload (bufs i).back offset (ps.getD i []) (h i)]
    exact (List.getD_eq_getElem ps [] hi)

theorem payloadsOfBatches_nil : payloadsOfBatches [] = [] := rfl

theorem payloadsOfBatches_cons (b : List (List Nat)) (ws : List (List (List Nat))) :
    payloadsOfBatches (b :: ws) = b.map payloadOf ++ payloadsOfBatches ws := by
  simp [payloadsOfBatches]

/-- The payloads the DirectForwarder writes are exactly the source payloads
delivered before the first read error, in order. -/
theorem forward_payloads (bufs : Nat → GoSlice) (evs : List ReadEvent)
    (wr : List (Nat × Bool)) (h : bufsInv bufs) :
    payloadsOfBatches (forward bufs evs wr).writes = srcPayloads evs := by
  induction evs generalizing bufs wr with
  | nil => rfl
  | cons e evs ih =>
    match e with
    | none => rfl
    | some [] =>
      simp only [forward, srcPayloads, List.nil_append]
      exact ih (resetBufs bufs) wr (bufsInv_resetBufs bufs h)
    | some (p :: ps) =>
      simp only [forward, srcPayloads]
      rw [payloadsOfBatches_cons]
      rw [dBatch_payloads (resetBufs bufs) (p :: ps) (bufsInv_resetBufs bufs h)]
      rw [ih (dFill (resetBufs bufs) (p :: ps)) wr.tail
        (bufsInv_dFill (resetBufs bufs) (p :: ps) (bufsInv_resetBufs bufs h))]

theorem readerHandle_inv (usePool : Bool) (st : ReaderState) (i : Nat)
    (p : List Nat) (k : Nat) (h : bufsInv st.readBufs) :
    bufsInv (readerHandle usePool st i p k).readBufs := by
  intro j
  simp only [readerHandle]
  by_cases hj : j = i
  · simp only [hj, if_true, deviceFill]
    have := writeBytes_length_ge (st.readBufs i).back offset p (h i)
    omega
  · simp only [hj, if_false]
    exact h j

theorem goCopy_take_eq (dst src : List Nat) (n : Nat) (hs : src.length = n)
    (h : n ≤ dst.length) : (goCopy dst src).take n = src := by
  subst hs
  exact goCopy_take_of_le dst src h

theorem pktBuf_len_ge (b : List Nat) (size : Nat) :
    size ≤ (if b.length < size then List.replicate size 0 else b).length := by
  split
  · simp
  · omega

theorem qpayload_mk_copy (pktBuf back p : List Nat) (hback : offset ≤ back.length)
    (hbuf : offset + p.length ≤ pktBuf.length) :
    qpayload ⟨goCopy pktBuf ((writeBytes back offset p).take (offset + p.length)),
      offset + p.length⟩ = p := by
  have hlen := writeBytes_length_ge back offset p hback
  have hsl : ((writeBytes back offset p).take (offset + p.length)).length
      = offset + p.length := by
    simp only [List.length_take]
    omega
  simp only [qpayload]
  rw [goCopy_take_eq _ _ _ hsl hbuf]
  exact writeBytes_payload back offset p hback

theorem readerHandle_payloads (usePool : Bool) (st : ReaderState) (i : Nat)
    (p : List Nat) (k : Nat) (h : bufsInv st.readBufs) :
    (readerHandle usePool st i p k).queue.map qpayload
      = st.queue.map qpayload ++ [p] := by
  simp only [readerHandle, deviceFill, List.map_append, List.map_cons, List.map_nil]
  congr 2
  exact qpayload_mk_copy _ (st.readBufs i).back p (h i) (pktBuf_len_ge _ _)

theorem readerEvent_inv (usePool : Bool) (ps : List (List Nat)) :
    ∀ (st : ReaderState) (i : Nat) (ks : List Nat), bufsInv st.readBufs →
      bufsInv (readerEvent usePool st i ps ks).readBufs := by
  induction ps with
  | nil => intro st i ks h; exact h
  | cons p ps ih =>
    intro st i ks h
    exact ih _ _ _ (readerHandle_inv usePool st i p (ks.headD 0) h)

theorem readerEvent_payloads (usePool : Bool) (ps : List (List Nat)) :
    ∀ (st : ReaderState) (i : Nat) (ks : List Nat), bufsInv st.readBufs →
      (readerEvent usePool st i ps ks).queue.map qpayload
        = st.queue.map qpayload ++ ps := by
  induction ps with
  | nil => intro st i ks _; simp [readerEvent]
  | cons p ps ih =>
    intro st i ks h
    simp only [readerEvent]
    rw [ih _ _ _ (readerHandle_inv usePool st i p (ks.headD 0) h)]
    rw [readerHandle_payloads usePool st i p (ks.headD 0) h]
    simp

theorem readToChannel_inv (usePool : Bool) (evs : List ReadEvent) :
    ∀ (st : ReaderState) (oracle : List Nat), bufsInv st.readBufs →
      bufsInv (readToChannel usePool st evs oracle).readBufs := by
  induction evs with
  | nil => intro st oracle h; exact h
  | cons e evs ih =>
    intro st oracle h
    match e with
    | none => exact h
    | some ps => exact ih _ _ (readerEvent_inv usePool ps _ 0 _ h)

/-- The packets `readToChannel` enqueues carry exactly the source payloads
delivered before the first read error, in order. -/
theorem readToChannel_payloads (usePool : Bool) (evs : List ReadEvent) :
    ∀ (st : ReaderState) (oracle : List Nat), bufsInv st.readBufs →
      (readToChannel usePool st evs oracle).queue.map qpayload
        = st.queue.map qpayload ++ srcPayloads evs := by
  induction evs with
  | nil => intro st oracle _; simp [readToChannel, srcPayloads]
  | cons e evs ih =>
    intro st oracle h
    match e with
    | none => simp [readToChannel, srcPayloads]
    | some ps =>
      simp only [readToChannel, srcPayloads]
      have h1 : bufsInv ({ st with reads := st.reads + 1 } : ReaderState).readBufs := h
      rw [ih (readerEvent usePool { st with reads := st.reads + 1 } 0 ps
          (oracle.take ps.length)) (oracle.drop ps.length)
        (readerEvent_inv usePool ps _ 0 (oracle.take ps.length) h1)]
      rw [readerEvent_payloads usePool ps _ 0 (oracle.take ps.length) h1]
      simp

/-- Flattening the writer's batches reproduces the queue contents exactly
(opportunistic batching only re-chunks, never reorders or drops). -/
theorem writeFromChannelLoop_flatten (n : Nat) :
    ∀ (q : List QPacket), q.length ≤ n → ∀ (usePool : Bool) (sched : List Bool)
      (wr : List (Nat × Bool)) (pool : List (List Nat)),
      (writeFromChannelLoop usePool n q sched wr pool).batches.flatten = q := by
  induction n with
  | zero =>
    intro q hq usePool sched wr pool
    have : q = [] := List.length_eq_zero.mp (Nat.le_zero.mp hq)
    subst this
    rfl
  | succ n ih =>
    intro q hq usePool sched wr pool
    match q with
    | [] => rfl
    | x :: q1 =>
      simp only [writeFromChannelLoop, List.flatten_cons, List.cons_append]
      have hrest := collectMore_rest_length_le (batchSize - 1) q1 sched
      have hlen : (collectMore (batchSize - 1) q1 sched).2.1.length ≤ n := by
        simp only [List.length_cons] at hq
        omega
      rw [ih _ hlen usePool _ _ _]
      rw [show (collectMore (batchSize - 1) q1 sched).1
          ++ (collectMore (batchSize - 1) q1 sched).2.1 = q1
        from collectMore_append (batchSize - 1) q1 sched]

theorem writeFromChannel_flatten (usePool : Bool) (q : List QPacket)
    (sched : List Bool) (wr : List (Nat × Bool)) (pool : List (List Nat)) :
    (writeFromChannel usePool q sched wr pool).batches.flatten = q :=
  writeFromChannelLoop_flatten q.length q (Nat.le_refl _) usePool sched wr pool

theorem foldl_cons_eq (l : List (List Nat)) :
    ∀ init, l.foldl (fun pl b => b :: pl) init = l.reverse ++ init := by
  induction l with
  | nil => intro init; rfl
  | cons b l ih =>
    intro init
    simp only [List.foldl_cons, List.reverse_cons, ih]
    simp

theorem writeFromChannelLoop_pool_mono (n : Nat) :
    ∀ (q : List QPacket), ∀ (usePool : Bool) (sched : List Bool)
      (wr : List (Nat × Bool)) (pool : List (List Nat)) (b : List Nat),
      b ∈ pool → b ∈ (writeFromChannelLoop usePool n q sched wr pool).pool := by
  induction n with
  | zero => intro q usePool sched wr pool b hb; exact hb
  | succ n ih =>
    intro q usePool sched wr pool b hb
    match q with
    | [] => exact hb
    | x :: q1 =>
      simp only [writeFromChannelLoop]
      apply ih
      by_cases hu : usePool
      · simp only [hu, if_true, foldl_cons_eq]
        exact List.mem_append_right _ hb
      · simp only [hu, if_false]
        exact hb

/-- With pooling on, every buffer of every batch the writer issues ends up
back in the pool's free set, write outcome notwithstanding. -/
theorem writeFromChannelLoop_put_all (n : Nat) :
    ∀ (q : List QPacket) (sched : List Bool)
      (wr : List (Nat × Bool)) (pool : List (List Nat))
      (batch : List QPacket) (pkt : QPacket),
      batch ∈ (writeFromChannelLoop true n q sched wr pool).batches → pkt ∈ batch →
      pkt.buf ∈ (writeFromChannelLoop true n q sched wr pool).pool := by
  induction n with
  | zero =>
    intro q sched wr pool batch pkt hbatch _
    simp [writeFromChannelLoop] at hbatch
  | succ n ih =>
    intro q sched wr pool batch pkt hbatch hpkt
    match q with
    | [] => simp [writeFromChannelLoop] at hbatch
    | x :: q1 =>
      simp only [writeFromChannelLoop, List.mem_cons] at hbatch ⊢
      cases hbatch with
      | inl heq =>
        apply writeFromChannelLoop_pool_mono
        simp only [if_true, foldl_cons_eq]
        apply List.mem_append_left
        rw [List.mem_reverse, List.mem_map]
        exact ⟨pkt, heq ▸ hpkt, rfl⟩
      | inr hmem =>
        exact ih _ _ _ _ batch pkt hmem hpkt

theorem writeFromChannelLoop_batch_bounds (n : Nat) :
    ∀ (q : List QPacket), ∀ (usePool : Bool) (sched : List Bool)
      (wr : List (Nat × Bool)) (pool : List (List Nat)) (batch : List QPacket),
      batch ∈ (writeFromChannelLoop usePool n q sched wr pool).batches →
      1 ≤ batch.length ∧ batch.length ≤ batchSize := by
  induction n with
  | zero =>
    intro q usePool sched wr pool batch hbatch
    simp [writeFromChannelLoop] at hbatch
  | succ n ih =>
    intro q usePool sched wr pool batch hbatch
    match q with
    | [] => simp [writeFromChannelLoop] at hbatch
    | x :: q1 =>
      simp only [writeFromChannelLoop, List.mem_cons] at hbatch
      cases hbatch with
      | inl heq =>
        subst heq
        have := collectMore_length_le (batchSize - 1) q1 sched
        constructor
        · simp
        · simp only [List.length_cons, batchSize] at this ⊢
          omega
      | inr hmem => exact ih _ usePool _ _ _ batch hmem

/-- The writer's batches and final pool do not depend on the write-result
oracle: a write error (or a partial accepted count) only logs. -/
theorem writeFromChannelLoop_wr_indep (n : Nat) :
    ∀ (q : List QPacket), ∀ (usePool : Bool) (sched : List Bool)
      (pool : List (List Nat)) (wr wr' : List (Nat × Bool)),
      (writeFromChannelLoop usePool n q sched wr pool).batches
        = (writeFromChannelLoop usePool n q sched wr' pool).batches ∧
      (writeFromChannelLoop usePool n q sched wr pool).pool
        = (writeFromChannelLoop usePool n q sched wr' pool).pool := by
  induction n with
  | zero => intro q usePool sched pool wr wr'; exact ⟨rfl, rfl⟩
  | succ n ih =>
    intro q usePool sched pool wr wr'
    match q with
    | [] => exact ⟨rfl, rfl⟩
    | x :: q1 =>
      simp only [writeFromChannelLoop]
      have hih := ih (collectMore (batchSize - 1) q1 sched).2.1 usePool
        (collectMore (batchSize - 1) q1 sched).2.2
        (if usePool then
          (((x :: (collectMore (batchSize - 1) q1 sched).1).map QPacket.buf).foldl
            (fun pl b => b :: pl) pool)
        else pool)
        wr.tail wr'.tail
      exact ⟨by rw [hih.1], hih.2⟩

/-- The DirectForwarder's writes and read count do not depend on the
write-result oracle: a write error only logs, the loop continues. -/
theorem forward_wr_indep (evs : List ReadEvent) :
    ∀ (bufs : Nat → GoSlice) (wr wr' : List (Nat × Bool)),
      (forward bufs evs wr).writes = (forward bufs evs wr').writes ∧
      (forward bufs evs wr).reads = (forward bufs evs wr').reads := by
  induction evs with
  | nil => intro bufs wr wr'; exact ⟨rfl, rfl⟩
  | cons e evs ih =>
    intro bufs wr wr'
    match e with
    | none => exact ⟨rfl, rfl⟩
    | some [] =>
      simp only [forward]
      have h := ih (resetBufs bufs) wr wr'
      exact ⟨h.1, by rw [h.2]⟩
    | some (p :: ps) =>
      simp only [forward]
      have h := ih (dFill (resetBufs bufs) (p :: ps)) wr.tail wr'.tail
      exact ⟨by rw [h.1], by rw [h.2]⟩

theorem forward_reset_absorb (bufs : Nat → GoSlice) (evs : List ReadEvent)
    (wr : List (Nat × Bool)) :
    forward (resetBufs bufs) evs wr = forward bufs evs wr := by
  have h : resetBufs (resetBufs bufs) = resetBufs bufs := funext fun i => rfl
  match evs with
  | [] => rfl
  | none :: evs => rfl
  | some [] :: evs => simp only [forward, h]
  | some (p :: ps) :: evs => simp only [forward, h]

/-- The payload bytes any queued pipeline writes equal the source payloads,
for either pooling mode, any initial pool free set, any pool-choice oracle,
any availability schedule, and any write outcomes. -/
theorem queued_payloads_eq (usePool : Bool) (pool0 : List (List Nat))
    (evs : List ReadEvent) (oracle : List Nat) (sched : List Bool)
    (wr : List (Nat × Bool)) :
    queuedPayloads (writeFromChannel usePool
        (readToChannel usePool (initReader pool0) evs oracle).queue sched wr
        (readToChannel usePool (initReader pool0) evs oracle).pool)
      = srcPayloads evs := by
  unfold queuedPayloads
  rw [writeFromChannel_flatten]
  rw [readToChannel_payloads usePool evs (initReader pool0) oracle (bufsInv_initReader pool0)]
  simp [initReader]

/-- Every forwarding direction set up by `Run` writes exactly the source
payload sequence. -/
theorem runDirection_payloads (useChannel usePool : Bool) (evs : List ReadEvent)
    (oracle : List Nat) (sched : List Bool) (wr : List (Nat × Bool)) :
    (runDirection useChannel usePool evs oracle sched wr).payloads
      = srcPayloads evs := by
  cases useChannel with
  | false =>
    simp only [runDirection, Bool.false_eq_true, if_false]
    exact forward_payloads initDirect evs wr bufsInv_initDirect
  | true =>
    simp only [runDirection, if_true]
    exact queued_payloads_eq usePool [] evs oracle sched wr

theorem readerHandle_noPool (st : ReaderState) (i : Nat) (p : List Nat) (k : Nat)
    (hp : p.length ≤ mtuSize) :
    (readerHandle false st i p k).fallbacks = st.fallbacks ∧
    ∀ pkt, pkt ∈ (readerHandle false st i p k).queue →
      pkt ∈ st.queue ∨ pkt.buf.length = maxPktSize := by
  have hnot : (maxPktSize < offset + p.length) = False :=
    eq_false (by simp only [maxPktSize, offset, mtuSize] at hp ⊢; omega)
  constructor
  · simp only [readerHandle, Bool.false_eq_true, if_false, List.length_replicate,
      hnot, Nat.add_zero]
  · intro pkt hpkt
    simp only [readerHandle, Bool.false_eq_true, if_false, List.length_replicate,
      hnot, List.mem_append, List.mem_singleton] at hpkt
    cases hpkt with
    | inl h => exact Or.inl h
    | inr h =>
      right
      rw [h]
      simp only [goCopy_length, List.length_replicate]

theorem readerEvent_noPool (ps : List (List Nat)) :
    ∀ (st : ReaderState) (i : Nat) (ks : List Nat),
      (∀ p, p ∈ ps → p.length ≤ mtuSize) →
      (readerEvent false st i ps ks).fallbacks = st.fallbacks ∧
      ∀ pkt, pkt ∈ (readerEvent false st i ps ks).queue →
        pkt ∈ st.queue ∨ pkt.buf.length = maxPktSize := by
  induction ps with
  | nil => intro st i ks _; exact ⟨rfl, fun pkt h => Or.inl h⟩
  | cons p ps ih =>
    intro st i ks hwf
    have h1 := readerHandle_noPool st i p (ks.headD 0) (hwf p (by simp))
    have h2 := ih (readerHandle false st i p (ks.headD 0)) (i + 1) ks.tail
      (fun q hq => hwf q (by simp [hq]))
    refine ⟨?_, ?_⟩
    · simp only [readerEvent]
      rw [h2.1, h1.1]
    · intro pkt hpkt
      simp only [readerEvent] at hpkt
      cases h2.2 pkt hpkt with
      | inr h => exact Or.inr h
      | inl h => exact h1.2 pkt h

theorem readToChannel_noPool (evs : List ReadEvent) :
    ∀ (st : ReaderState) (oracle : List Nat), wfEvents evs = true →
      (readToChannel false st evs oracle).fallbacks = st.fallbacks ∧
      ∀ pkt, pkt ∈ (readToChannel false st evs oracle).queue →
        pkt ∈ st.queue ∨ pkt.buf.length = maxPktSize := by
  induction evs with
  | nil => intro st oracle _; exact ⟨rfl, fun pkt h => Or.inl h⟩
  | cons e evs ih =>
    intro st oracle hwf
    have hwf' : wfEvents evs = true := by
      simp only [wfEvents, List.all_cons, Bool.and_eq_true] at hwf
      exact hwf.2
    match e with
    | none => exact ⟨rfl, fun pkt h => Or.inl h⟩
    | some ps =>
      have hps : ∀ p, p ∈ ps → p.length ≤ mtuSize := by
        simp only [wfEvents, List.all_cons, Bool.and_eq_true] at hwf
        have h := hwf.1
        simp only [Option.getD_some, List.all_eq_true, decide_eq_true_eq] at h
        exact h
      have h1 := readerEvent_noPool ps { st with reads := st.reads + 1 } 0
        (oracle.take ps.length) hps
      have h2 := ih (readerEvent false { st with reads := st.reads + 1 } 0 ps
        (oracle.take ps.length)) (oracle.drop ps.length) hwf'
      refine ⟨?_, ?_⟩
      · simp only [readToChannel]
        rw [h2.1, h1.1]
      · intro pkt hpkt
        simp only [readToChannel] at hpkt
        cases h2.2 pkt hpkt with
        | inr h => exact Or.inr h
        | inl h => exact h1.2 pkt h

set_option maxRecDepth 100000 in
/-- C1: in the claimed scenario — pooling enabled and `Get` returning a
buffer smaller than the required size (the stale-pool state the safeguard
is for) — the reader does allocate an exact-size replacement and continue
(fallback count 1, enqueued buffer of length 110), but the writer then
returns that replacement buffer to the pool (`Put(originalBufs[i])` has no
exclusion), so the pool ends up holding a buffer of capacity 110 rather
than `maxPktSize`, contradicting the claimed exclusion and the claimed
pool-capacity invariant. -/
theorem C1_replacement_returned_to_pool :
    c1Reader.fallbacks = 1
    ∧ (c1Reader.queue.map fun pkt => pkt.buf.length) = [110]
    ∧ c1Writer.pool.map List.length = [110]
    ∧ ¬(∀ b, b ∈ c1Writer.pool → b.length = maxPktSize) := by decide

/-- C2 counterexample: the legacy direct `forward` loop does NOT terminate
on a `Read` error: after an error event it performs another `Read` (2 read
calls) and a `Write` (1 write batch), refuting the claim that every
forwarding task exits immediately with no further Read or Write. -/
theorem C2_counterexample :
    (legacyForward initLegacy [none, some [[1, 2, 3]]] []).reads = 2
    ∧ (legacyForward initLegacy [none, some [[1, 2, 3]]] []).writes.length = 1 := by
  decide

/-- C2 (amended): the `tun` package's DirectForwarder loop and the
QueuedForwarder reader terminate immediately on a Device `Read` error — no
further `Read` or `Write` happens and nothing more is enqueued — while the
legacy direct `forward` variant instead logs the read error and continues
its loop. -/
theorem C2_read_error_terminal_amended (bufs : Nat → GoSlice) (evs : List ReadEvent)
    (wr : List (Nat × Bool)) (usePool : Bool) (st : ReaderState) (oracle : List Nat) :
    (forward bufs (none :: evs) wr).writes = []
    ∧ (forward bufs (none :: evs) wr).reads = 1
    ∧ readToChannel usePool st (none :: evs) oracle = { st with reads := st.reads + 1 }
    ∧ (legacyForward bufs (none :: evs) wr).reads
        = (legacyForward (legacyReset bufs) evs wr).reads + 1
    ∧ (legacyForward bufs (none :: evs) wr).writes
        = (legacyForward (legacyReset bufs) evs wr).writes :=
  ⟨rfl, rfl, rfl, rfl, rfl⟩

/-- C3: for every fixed sequence of packets produced by the source Device,
the DirectForwarder, the QueuedForwarder with pooling off, and the
QueuedForwarder with pooling on write the same payload bytes to the
destination Device in the same order (each equal to the source sequence up
to the first read error), whatever the batching oracles do. -/
theorem C3_strategy_equivalence (evs : List ReadEvent) (up : Bool)
    (orD or0 or1 : List Nat) (schD sch0 sch1 : List Bool)
    (wrD wr0 wr1 : List (Nat × Bool)) :
    (runDirection false up evs orD schD wrD).payloads
      = (runDirection true false evs or0 sch0 wr0).payloads
    ∧ (runDirection true false evs or0 sch0 wr0).payloads
      = (runDirection true true evs or1 sch1 wr1).payloads := by
  constructor
  · rw [runDirection_payloads, runDirection_payloads]
  · rw [runDirection_payloads, runDirection_payloads]

/-- C4: every batch the QueuedForwarder writer issues holds between 1 and
`batchSize` packets: one blocking receive plus at most `batchSize - 1`
opportunistic non-blocking receives, stopping at the first empty poll. -/
theorem C4_writer_batch_size (usePool : Bool) (q : List QPacket) (sched : List Bool)
    (wr : List (Nat × Bool)) (pool : List (List Nat)) (batch : List QPacket)
    (h : batch ∈ (writeFromChannel usePool q sched wr pool).batches) :
    1 ≤ batch.length ∧ batch.length ≤ batchSize :=
  writeFromChannelLoop_batch_bounds q.length q usePool sched wr pool batch h

/-- Witness for C4 at a concrete two-packet queue. -/
theorem C4_witness :
    1 ≤ ([QPacket.mk [1] 1, QPacket.mk [2] 1] : List QPacket).length
    ∧ ([QPacket.mk [1] 1, QPacket.mk [2] 1] : List QPacket).length ≤ batchSize :=
  C4_writer_batch_size false [QPacket.mk [1] 1, QPacket.mk [2] 1] [true] [] []
    [QPacket.mk [1] 1, QPacket.mk [2] 1] (by decide)

/-- C5: the QueuedForwarder reader does NOT reset its batch-read buffers:
after the first `Read` delivers a 100-byte packet, buffer 0 stands at
length 110 — not the full `bufLen` = `mtuSize + offset` — when the second
`Read` is issued (untouched buffers keep full length), contradicting the
claim that every buffer is reset to full capacity before every `ReadBatch`
(under the spec's Device contract, which truncates filled buffers). -/
theorem C5_no_reset_in_reader :
    (c5Reader.readBufs 0).len = 110
    ∧ (c5Reader.readBufs 1).len = bufLen
    ∧ (110 : Nat) ≠ bufLen := by decide

/-- C6: within one direction the packets are written in exactly the order
they were read, both for the DirectForwarder and for the QueuedForwarder
(any pooling mode, any initial pool, any batching schedule): the written
payload sequence equals the source payload sequence. -/
theorem C6_order_preservation (evs : List ReadEvent) (usePool : Bool)
    (pool0 : List (List Nat)) (oracle : List Nat) (sched : List Bool)
    (wrD wrQ : List (Nat × Bool)) :
    payloadsOfBatches (forward initDirect evs wrD).writes = srcPayloads evs
    ∧ queuedPayloads (writeFromChannel usePool
        (readToChannel usePool (initReader pool0) evs oracle).queue sched wrQ
        (readToChannel usePool (initReader pool0) evs oracle).pool)
      = srcPayloads evs :=
  ⟨forward_payloads initDirect evs wrD bufsInv_initDirect,
   queued_payloads_eq usePool pool0 evs oracle sched wrQ⟩

/-- C7: in the DirectForwarder loop a successful zero-count read causes an
immediate retry with no `WriteBatch` (same writes, one more read), and a
read of `n > 0` packets issues exactly one `WriteBatch` whose `i`-th
buffer is the `i`-th read buffer resliced to `sizes[i] + offset` bytes. -/
theorem C7_direct_batch (bufs : Nat → GoSlice) (evs : List ReadEvent)
    (wr : List (Nat × Bool)) (p : List Nat) (ps : List (List Nat)) :
    ((forward bufs (some [] :: evs) wr).writes = (forward bufs evs wr).writes
      ∧ (forward bufs (some [] :: evs) wr).reads = (forward bufs evs wr).reads + 1)
    ∧ ((forward bufs (some (p :: ps) :: evs) wr).writes
        = dBatch (dFill (resetBufs bufs) (p :: ps)) (p :: ps)
            :: (forward (dFill (resetBufs bufs) (p :: ps)) evs wr.tail).writes
      ∧ (dBatch (dFill (resetBufs bufs) (p :: ps)) (p :: ps)).length = (p :: ps).length
      ∧ ∀ i, i < (p :: ps).length →
          (dBatch (dFill (resetBufs bufs) (p :: ps)) (p :: ps)).getD i []
            = ((dFill (resetBufs bufs) (p :: ps)) i).back.take
                (((p :: ps).getD i []).length + offset)) := by
  constructor
  · constructor
    · simp only [forward]
      rw [forward_reset_absorb]
    · simp only [forward]
      rw [forward_reset_absorb]
  · refine ⟨rfl, by simp [dBatch], ?_⟩
    intro i hi
    simp only [dBatch]
    rw [List.getD_eq_getElem _ _ (by simpa using hi)]
    simp only [List.getElem_map, List.getElem_range]

/-- Witness for C7 at a single three-byte packet. -/
theorem C7_witness :
    (dBatch (dFill (resetBufs initDirect) [[1, 2, 3]]) [[1, 2, 3]]).getD 0 []
      = ((dFill (resetBufs initDirect) [[1, 2, 3]]) 0).back.take
          ((([[1, 2, 3]] : List (List Nat)).getD 0 []).length + offset) :=
  ((C7_direct_batch initDirect [] [] [1, 2, 3] []).2.2.2) 0 (by decide)

/-- C8: a Device `Write` error is non-fatal in both forwarders — the
written batches and read counts do not depend on the write-result oracle
(an error only logs) — and with pooling on the writer returns every buffer
of every batch to the pool after the `WriteBatch` call, whatever the call
returned. -/
theorem C8_write_error_nonfatal :
    (∀ (bufs : Nat → GoSlice) (evs : List ReadEvent) (wr wr' : List (Nat × Bool)),
      (forward bufs evs wr).writes = (forward bufs evs wr').writes
      ∧ (forward bufs evs wr).reads = (forward bufs evs wr').reads)
    ∧ (∀ (usePool : Bool) (q : List QPacket) (sched : List Bool)
        (pool : List (List Nat)) (wr wr' : List (Nat × Bool)),
      (writeFromChannel usePool q sched wr pool).batches
        = (writeFromChannel usePool q sched wr' pool).batches
      ∧ (writeFromChannel usePool q sched wr pool).pool
        = (writeFromChannel usePool q sched wr' pool).pool)
    ∧ (∀ (q : List QPacket) (sched : List Bool) (wr : List (Nat × Bool))
        (pool : List (List Nat)) (batch : List QPacket) (pkt : QPacket),
      batch ∈ (writeFromChannel true q sched wr pool).batches → pkt ∈ batch →
      pkt.buf ∈ (writeFromChannel true q sched wr pool).pool) :=
  ⟨fun bufs evs wr wr' => forward_wr_indep evs bufs wr wr',
   fun usePool q sched pool wr wr' =>
     writeFromChannelLoop_wr_indep q.length q usePool sched pool wr wr',
   fun q sched wr pool batch pkt h1 h2 =>
     writeFromChannelLoop_put_all q.length q sched wr pool batch pkt h1 h2⟩

/-- Witness for C8 at a concrete one-packet queue. -/
theorem C8_witness :
    (QPacket.mk [7] 1).buf ∈ (writeFromChannel true [QPacket.mk [7] 1] [] [] []).pool :=
  C8_write_error_nonfatal.2.2 [QPacket.mk [7] 1] [] [] [] [QPacket.mk [7] 1]
    (QPacket.mk [7] 1) (by decide) (by decide)

/-- C9: with the queued pipeline off, the pooling switch has no effect:
the whole run's observable behaviour (payloads, reads, pool set, pool
initialization) is identical for `usePool = true` and `usePool = false` —
the direct path never initializes or consults the buffer pool. -/
theorem C9_pool_flag_inert_direct (evs1 evs2 : List ReadEvent)
    (or1 or2 : List Nat) (sch1 sch2 : List Bool) (wr1 wr2 : List (Nat × Bool)) :
    tunRunModel false true evs1 evs2 or1 or2 sch1 sch2 wr1 wr2
      = tunRunModel false false evs1 evs2 or1 or2 sch1 sch2 wr1 wr2 := rfl

/-- C10: with pooling disabled, the undersized-buffer fallback branch in
the QueuedForwarder reader is unreachable: over any contract-conforming
event trace (payloads at most `mtuSize` bytes) the fallback counter stays
0 and every enqueued packet buffer is a fresh allocation of capacity
`maxPktSize`. -/
theorem C10_no_fallback_unpooled (evs : List ReadEvent) (oracle : List Nat)
    (pool0 : List (List Nat)) (hwf : wfEvents evs = true) :
    (readToChannel false (initReader pool0) evs oracle).fallbacks = 0
    ∧ ∀ pkt, pkt ∈ (readToChannel false (initReader pool0) evs oracle).queue →
        pkt.buf.length = maxPktSize := by
  have h := readToChannel_noPool evs (initReader pool0) oracle hwf
  refine ⟨by rw [h.1]; rfl, ?_⟩
  intro pkt hpkt
  cases h.2 pkt hpkt with
  | inl hmem => simp [initReader] at hmem
  | inr hlen => exact hlen

/-- Witness for C10 at a concrete one-packet trace. -/
theorem C10_witness :
    (readToChannel false (initReader []) [some [[1, 2, 3]]] []).fallbacks = 0 :=
  (C10_no_fallback_unpooled [some [[1, 2, 3]]] [] [] (by decide)).1

end TunModel
